import Mathlib

/-!
Verification of the `stateMachine` transition engine of
`@terrygonguet/svelte-state-machine` (current version: `_stateMachine` with
`asyncMode`, `onError` and `hooks` options).

The engine is embedded as a small-step system.  A `Config` holds the fields
the TypeScript closure owns: the published state (the `state` writable
store), the `transitioning` flag, the cached values of the derived `is`
stores, the set of started-but-unsettled async transitions, and the id of
the transition owned by the current `AbortController`.  Environment events
are `dispatch(action)` calls and settlements of pending promises (a promise
settling and its `.then` continuation running are modelled as one atomic
step, matching the JavaScript microtask model in which no dispatch
interleaves between the two).  Every step also emits a list of observable
events (hook invocations, store publications, flag writes) so that ordering
claims can be stated about a single call.
-/

namespace StateMachine

variable {σ α ε : Type}

/-- The `asyncMode` option: behaviour while an async transition is pending. -/
inductive AsyncMode where
  | block
  | abort
deriving DecidableEq

/-- Result of invoking a transition function on (state, action): a plain next
state, a synchronously thrown error, or a promise (deferred value whose
outcome the environment supplies at settlement time). -/
inductive RVal (σ ε : Type) where
  | next : σ → RVal σ ε
  | thrown : ε → RVal σ ε
  | promise : RVal σ ε

/-- The hook set registered for one state discriminant
(`hooks[stateType] = { onEnter?, onExit?, onAsyncTransition? }`).  `onEnter`
and `onExit` return nothing, so only their presence is recorded; their
invocations are observable through the event log. -/
structure HookSet (σ α : Type) where
  hasOnEnter : Bool
  hasOnExit : Bool
  onAsyncTransition : Option (σ → α → Option σ)

/-- A state machine definition: the arguments of `_stateMachine` together
with the discriminant (`type`) projections of the two unions.  `table` is
the `machine` object literally: an association list over its top-level keys
(state discriminants), each mapping action discriminants to transition
functions. -/
structure SM (σ α ε : Type) where
  stype : σ → String
  atype : α → String
  asyncMode : AsyncMode
  onError : Option (ε → σ → α → σ)
  hooks : List (String × HookSet σ α)
  table : List (String × List (String × (σ → α → RVal σ ε)))

/-- JavaScript object property access on a string-keyed object literal. -/
def assoc {β : Type _} (k : String) : List (String × β) → Option β
  | [] => none
  | kv :: rest => if kv.1 = k then some kv.2 else assoc k rest

/-- `machine[stateType]?.[actionType]`. -/
def tableLookup (M : SM σ α ε) (st ak : String) : Option (σ → α → RVal σ ε) :=
  match assoc st M.table with
  | none => none
  | some row => assoc ak row

/-- `hooks?.[stateType] ?? {}`. -/
def hookAt (M : SM σ α ε) (st : String) : HookSet σ α :=
  (assoc st M.hooks).getD ⟨false, false, none⟩

/-- One started async transition whose wrapped promise has not yet settled:
the dispatch-time snapshots `$state` / `$action` captured by its `.then`
continuation, and whether its `AbortController` has been aborted. -/
structure Pending (σ α : Type) where
  id : Nat
  dispState : σ
  action : α
  aborted : Bool
deriving DecidableEq

/-- The mutable state owned by one `_stateMachine` closure.  `isCache` holds
the current values of the derived `is` stores (recomputed on every `state`
publication, as `derived` does synchronously). -/
structure Config (σ α : Type) where
  state : σ
  transitioning : Bool
  isCache : List (String × Bool)
  pending : List (Pending σ α)
  controller : Option Nat
  nextId : Nat
deriving DecidableEq

/-- Observable events of a single step: hook invocations with their
arguments, `state` store publications, `transitioning` store changes, and an
unhandled rejection escaping an async continuation. -/
inductive Ev (σ α ε : Type) where
  | exitH : σ → σ → α → Ev σ α ε
  | enterH : σ → σ → α → Ev σ α ε
  | asyncH : σ → α → Ev σ α ε
  | errH : ε → σ → α → Ev σ α ε
  | publish : σ → Ev σ α ε
  | setFlag : Bool → Ev σ α ε
  | uncaught : ε → Ev σ α ε
deriving DecidableEq

/-- Values of the `is` stores: one derived store per top-level key of the
`machine` object, holding `$state.type == type`. -/
def mkIs (M : SM σ α ε) (v : σ) : List (String × Bool) :=
  M.table.map (fun kv => (kv.1, M.stype v == kv.1))

/-- `state.set(v)` (svelte object stores always renotify): publish `v` and
synchronously recompute every derived `is` store. -/
def publishState (M : SM σ α ε) (c : Config σ α) (v : σ) : Config σ α :=
  { c with state := v, isCache := mkIs M v }

/-- `transitioning.set(b)`: a svelte boolean store only assigns and notifies
when the value actually changes (`safe_not_equal`). -/
def writeFlag (c : Config σ α) (b : Bool) : Config σ α × List (Ev σ α ε) :=
  if c.transitioning = b then (c, []) else ({ c with transitioning := b }, [Ev.setFlag b])

/-- Result of one engine step: the new configuration, the events it emitted
in order, and the error it raised to its synchronous caller, if any. -/
structure StepOut (σ α ε : Type) where
  cfg : Config σ α
  evs : List (Ev σ α ε)
  thrown : Option ε
deriving DecidableEq

/-- The synchronous tail of the updater: `onExit?.($state, next, $action)`,
then `onEnter` looked up under `next.type`, then `return next` (published by
`update`). -/
def syncPath (M : SM σ α ε) (c : Config σ α) (s n : σ) (a : α) (hs : HookSet σ α) :
    StepOut σ α ε :=
  let exitEvs := if hs.hasOnExit then [Ev.exitH s n a] else []
  let hn := hookAt M (M.stype n)
  let enterEvs := if hn.hasOnEnter then [Ev.enterH s n a] else []
  ⟨publishState M c n, exitEvs ++ enterEvs ++ [Ev.publish n], none⟩

/-- The `catch` clause of the updater: `return onError(error, $state, $action)`
when configured (published by `update`), otherwise rethrow — `update` never
calls `set`, so nothing is published. -/
def errorReturn (M : SM σ α ε) (c : Config σ α) (s : σ) (a : α) (e : ε) : StepOut σ α ε :=
  match M.onError with
  | some h => ⟨publishState M c (h e s a), [Ev.errH e s a, Ev.publish (h e s a)], none⟩
  | none => ⟨c, [], some e⟩

/-- The asynchronous branch of the updater: `transitioning.set(true)`, invoke
`onAsyncTransition` if present, in abort mode install a fresh
`AbortController` for the new transition and wrap the promise, record the
continuation (a new pending transition capturing `$state` and `$action`),
and `return loadingState ?? $state` (published by `update`). -/
def asyncPath (M : SM σ α ε) (c : Config σ α) (s : σ) (a : α) (hs : HookSet σ α) :
    StepOut σ α ε :=
  let fc := writeFlag (ε := ε) c true
  let c1 := fc.1
  let hookOut : Option σ × List (Ev σ α ε) :=
    match hs.onAsyncTransition with
    | some g => (g s a, [Ev.asyncH s a])
    | none => (none, [])
  let c2 := if M.asyncMode = AsyncMode.abort then { c1 with controller := some c1.nextId } else c1
  let c3 := { c2 with
      pending := c2.pending ++ [⟨c2.nextId, s, a, false⟩],
      nextId := c2.nextId + 1 }
  let v := hookOut.1.getD s
  ⟨publishState M c3 v, fc.2 ++ hookOut.2 ++ [Ev.publish v], none⟩

/-- The body of `state.update($state => ...)`: look up the reducer for
(`$state.type`, `$action.type`), defaulting to the unchanged state, and take
the synchronous, throwing or asynchronous branch. -/
def dispatchBody (M : SM σ α ε) (c : Config σ α) (a : α) : StepOut σ α ε :=
  let s := c.state
  let hs := hookAt M (M.stype s)
  match tableLookup M (M.stype s) (M.atype a) with
  | none => syncPath M c s s a hs
  | some f =>
    match f s a with
    | RVal.next n => syncPath M c s n a hs
    | RVal.thrown e => errorReturn M c s a e
    | RVal.promise => asyncPath M c s a hs

/-- Marking of the transition held by the aborted `AbortController`. -/
def markAbort (j : Nat) (p : Pending σ α) : Pending σ α :=
  if p.id = j then { p with aborted := true } else p

/-- `abortController?.abort()`: signal the controller's transition, if it is
still pending, so that its wrapped promise settles with an `AbortError` that
its continuation will ignore. -/
def abortCurrent (c : Config σ α) : Config σ α :=
  match c.controller with
  | none => c
  | some j => { c with pending := c.pending.map (markAbort j) }

/-- `dispatch($action)`: while transitioning, block mode returns immediately
and abort mode first aborts the current controller; then the update body
runs. -/
def dispatch (M : SM σ α ε) (c : Config σ α) (a : α) : StepOut σ α ε :=
  if c.transitioning then
    match M.asyncMode with
    | AsyncMode.block => ⟨c, [], none⟩
    | AsyncMode.abort => dispatchBody M (abortCurrent c) a
  else dispatchBody M c a

/-- Settlement outcome of a pending promise, chosen by the environment. -/
inductive Outcome (σ ε : Type) where
  | resolve : σ → Outcome σ ε
  | reject : ε → Outcome σ ε
deriving DecidableEq

/-- Settlement of pending transition `i` and the synchronous run of its
`.then` continuation.  An aborted transition's wrapped promise has already
been rejected with an `AbortError`, which `isAbortError` filters out: the
continuation returns without touching anything.  Otherwise, on resolution:
`onExit` (for the dispatch-time state's discriminant), `onEnter` (for the
resolved state's discriminant), `state.set(next)`, `transitioning.set(false)`；
on rejection: `transitioning.set(false)` then `onError` or an unhandled
rethrow. -/
def settle (M : SM σ α ε) (c : Config σ α) (i : Nat) (out : Outcome σ ε) : StepOut σ α ε :=
  match c.pending.find? (fun p => p.id == i) with
  | none => ⟨c, [], none⟩
  | some p =>
    let c0 := { c with pending := c.pending.filter (fun q => q.id != i) }
    if p.aborted then ⟨c0, [], none⟩
    else
      match out with
      | Outcome.resolve n =>
        let hs := hookAt M (M.stype p.dispState)
        let exitEvs := if hs.hasOnExit then [Ev.exitH p.dispState n p.action] else []
        let hn := hookAt M (M.stype n)
        let enterEvs := if hn.hasOnEnter then [Ev.enterH p.dispState n p.action] else []
        let c1 := publishState M c0 n
        let fc := writeFlag (ε := ε) c1 false
        ⟨fc.1, exitEvs ++ enterEvs ++ [Ev.publish n] ++ fc.2, none⟩
      | Outcome.reject e =>
        let fc := writeFlag (ε := ε) c0 false
        match M.onError with
        | some h =>
          let v := h e p.dispState p.action
          ⟨publishState M fc.1 v, fc.2 ++ [Ev.errH e p.dispState p.action, Ev.publish v], none⟩
        | none => ⟨fc.1, fc.2 ++ [Ev.uncaught e], none⟩

/-- Environment events driving the engine: a `dispatch` call, or the
settlement of pending promise `i` with a given outcome. -/
inductive EvtIn (σ α ε : Type) where
  | act : α → EvtIn σ α ε
  | settleAt : Nat → Outcome σ ε → EvtIn σ α ε

/-- One engine step. -/
def step (M : SM σ α ε) (c : Config σ α) : EvtIn σ α ε → StepOut σ α ε
  | EvtIn.act a => dispatch M c a
  | EvtIn.settleAt i out => settle M c i out

/-- Run a sequence of environment events. -/
def run (M : SM σ α ε) (c : Config σ α) : List (EvtIn σ α ε) → Config σ α
  | [] => c
  | e :: es => run M (step M c e).cfg es

/-- The configuration created by `_stateMachine(initialState, ...)`. -/
def initConfig (M : SM σ α ε) (s0 : σ) : Config σ α :=
  ⟨s0, false, mkIs M s0, [], none, 0⟩

/-- A reachable configuration: the engine constructed on `s0`, driven by an
arbitrary event sequence. -/
def reach (M : SM σ α ε) (s0 : σ) (es : List (EvtIn σ α ε)) : Config σ α :=
  run M (initConfig M s0) es

/-! ### The concrete light-switch machine of the test suite (`Sync.machine`) -/

/-- States of the test machine: `{ type: "off" }` and `{ type: "on", level }`. -/
inductive LState where
  | off
  | on : Int → LState
deriving DecidableEq

/-- Actions of the test machine. -/
inductive LAct where
  | toggle
  | up
  | down
deriving DecidableEq

/-- Discriminant of a test-machine state. -/
def lstype : LState → String
  | LState.off => "off"
  | LState.on _ => "on"

/-- Discriminant of a test-machine action. -/
def latype : LAct → String
  | LAct.toggle => "toggle"
  | LAct.up => "up"
  | LAct.down => "down"

/-- The `Sync.machine` transition table from the test suite.  The reducers
under `"on"` are only ever invoked with an `on` state (the lookup is keyed
by the discriminant), so the `off` branches are dead. -/
def syncMachine : SM LState LAct Unit where
  stype := lstype
  atype := latype
  asyncMode := AsyncMode.block
  onError := none
  hooks := []
  table :=
    [("off",
      [("toggle", fun _ _ => RVal.next (LState.on 1)),
       ("up", fun _ _ => RVal.next (LState.on 1))]),
     ("on",
      [("toggle", fun _ _ => RVal.next LState.off),
       ("up", fun s _ =>
          match s with
          | LState.on level =>
            if level ≥ 3 then RVal.next (LState.on level) else RVal.next (LState.on (level + 1))
          | LState.off => RVal.next LState.off),
       ("down", fun s _ =>
          match s with
          | LState.on level =>
            if level = 1 then RVal.next LState.off else RVal.next (LState.on (level - 1))
          | LState.off => RVal.next LState.off)])]

/-! ### A minimal abort-mode machine exhibiting the stuck transitioning flag -/

/-- Two bare states. -/
inductive BS where
  | a
  | b
deriving DecidableEq

/-- `go` has an async transition out of `a`; `halt` a synchronous one. -/
inductive BA where
  | go
  | halt
deriving DecidableEq

/-- Discriminant of `BS`. -/
def bstype : BS → String
  | BS.a => "a"
  | BS.b => "b"

/-- Discriminant of `BA`. -/
def batype : BA → String
  | BA.go => "go"
  | BA.halt => "halt"

/-- Abort-mode machine where state `a` has one asynchronous action (`go`)
and one synchronous action (`halt`). -/
def abortBugMachine : SM BS BA Unit where
  stype := bstype
  atype := batype
  asyncMode := AsyncMode.abort
  onError := none
  hooks := []
  table := [("a", [("go", fun _ _ => RVal.promise), ("halt", fun _ _ => RVal.next BS.b)])]

/-! ### Machines used as concrete instances in counterexamples and witnesses -/

/-- Named transition functions, so hypotheses about table lookups can be
instantiated by `rfl`. -/
def goReducer : BS -> BA -> RVal BS String := fun _ _ => RVal.promise

/-- Synchronous transition to state b. -/
def haltReducer : BS -> BA -> RVal BS String := fun _ _ => RVal.next BS.b

/-- Synchronously throwing transition. -/
def failReducer : BS -> BA -> RVal BS String := fun _ _ => RVal.thrown "boom"

/-- An onAsyncTransition hook returning an interim state. -/
def loadHook : BS -> BA -> Option BS := fun _ _ => some BS.b

/-- Block-mode machine with onExit/onEnter hooks on state a and no
transition registered for (a, halt). -/
def hookMachine : SM BS BA String where
  stype := bstype
  atype := batype
  asyncMode := AsyncMode.block
  onError := none
  hooks := [("a", { hasOnEnter := true, hasOnExit := true, onAsyncTransition := none })]
  table := [("a", [("go", goReducer)])]

/-- Block-mode machine with a synchronous transition (a, halt) -> b and
hooks on both states. -/
def hookSyncMachine : SM BS BA String where
  stype := bstype
  atype := batype
  asyncMode := AsyncMode.block
  onError := none
  hooks := [("a", { hasOnEnter := true, hasOnExit := true, onAsyncTransition := none }),
            ("b", { hasOnEnter := true, hasOnExit := true, onAsyncTransition := none })]
  table := [("a", [("halt", haltReducer)])]

/-- Machine whose (a, halt) transition throws, with onError recovering to b. -/
def failMachine : SM BS BA String where
  stype := bstype
  atype := batype
  asyncMode := AsyncMode.block
  onError := some (fun _ _ _ => BS.b)
  hooks := []
  table := [("a", [("halt", failReducer)])]

/-- Block-mode machine with an async (a, go) transition and an
onAsyncTransition hook publishing the interim state b. -/
def loadMachine : SM BS BA String where
  stype := bstype
  atype := batype
  asyncMode := AsyncMode.block
  onError := none
  hooks := [("a", { hasOnEnter := false, hasOnExit := false, onAsyncTransition := some loadHook })]
  table := [("a", [("go", goReducer)])]

/-- Machine over the light-switch state union whose table registers only the
"off" discriminant, although the machine can reach an "on" state. -/
def onlyOffMachine : SM LState LAct Unit where
  stype := lstype
  atype := latype
  asyncMode := AsyncMode.block
  onError := none
  hooks := []
  table := [("off", [("toggle", fun _ _ => RVal.next (LState.on 1))])]

/-- Invariant of reachable engine configurations. -/
structure Inv (M : SM σ α ε) (c : Config σ α) : Prop where
  idsLt : ∀ p ∈ c.pending, p.id < c.nextId
  sorted : c.pending.Pairwise (fun p q => p.id < q.id)
  live : ∀ p ∈ c.pending, p.aborted = false → c.transitioning = true
  actl : M.asyncMode = AsyncMode.abort → ∀ p ∈ c.pending, p.aborted = false →
    c.controller = some p.id
  cmax : M.asyncMode = AsyncMode.abort → ∀ j, c.controller = some j →
    ∀ p ∈ c.pending, p.id ≤ j
  bempty : M.asyncMode = AsyncMode.block → c.transitioning = false → c.pending = []
  blen : M.asyncMode = AsyncMode.block → c.pending.length ≤ 1
  bnoab : M.asyncMode = AsyncMode.block → ∀ p ∈ c.pending, p.aborted = false


/-! ### Helper lemmas -/

theorem abortCurrent_state (c : Config σ α) : (abortCurrent c).state = c.state := by
  unfold abortCurrent
  cases c.controller <;> rfl

theorem abortCurrent_transitioning (c : Config σ α) :
    (abortCurrent c).transitioning = c.transitioning := by
  unfold abortCurrent
  cases c.controller <;> rfl

theorem abortCurrent_controller (c : Config σ α) :
    (abortCurrent c).controller = c.controller := by
  unfold abortCurrent
  cases hc : c.controller with
  | none => exact hc
  | some j => rfl

theorem abortCurrent_nextId (c : Config σ α) : (abortCurrent c).nextId = c.nextId := by
  unfold abortCurrent
  cases c.controller <;> rfl

theorem markAbort_id (j : Nat) (p : Pending σ α) : (markAbort j p).id = p.id := by
  unfold markAbort
  split <;> rfl

theorem markAbort_false (j : Nat) (p : Pending σ α) (h : (markAbort j p).aborted = false) :
    p.aborted = false ∧ markAbort j p = p ∧ p.id ≠ j := by
  unfold markAbort at h ⊢
  split at h
  · cases h
  · next hne => exact ⟨h, if_neg hne, hne⟩

theorem abortCurrent_pending_none (c : Config σ α) (h : c.controller = none) :
    (abortCurrent c).pending = c.pending := by
  unfold abortCurrent
  rw [h]

theorem abortCurrent_pending_some (c : Config σ α) (j : Nat) (h : c.controller = some j) :
    (abortCurrent c).pending = c.pending.map (markAbort j) := by
  unfold abortCurrent
  rw [h]

/-- Decomposition of a pending transition after `abortController?.abort()`:
it comes from a pending transition of the original configuration with the
same id, and if it is still unaborted it is untouched and was not the
controller's transition. -/
theorem abortCurrent_pending_mem (c : Config σ α) (q : Pending σ α)
    (hq : q ∈ (abortCurrent c).pending) :
    ∃ p ∈ c.pending, q.id = p.id ∧
      (q.aborted = false → q = p ∧ p.aborted = false ∧ c.controller ≠ some p.id) := by
  cases hc : c.controller with
  | none =>
    rw [abortCurrent_pending_none c hc] at hq
    refine ⟨q, hq, rfl, fun hab => ⟨rfl, hab, ?_⟩⟩
    intro hcontra
    exact Option.noConfusion hcontra
  | some j =>
    rw [abortCurrent_pending_some c j hc] at hq
    obtain ⟨p, hp, hfq⟩ := List.mem_map.mp hq
    refine ⟨p, hp, by rw [← hfq, markAbort_id], ?_⟩
    intro hab
    rw [← hfq] at hab
    obtain ⟨h1, h2, h3⟩ := markAbort_false j p hab
    refine ⟨by rw [← hfq, h2], h1, ?_⟩
    intro hcontra
    injection hcontra with hji
    exact absurd hji.symm h3

theorem writeFlag_fst_state (c : Config σ α) (b : Bool) :
    ((writeFlag (ε := ε) c b).1).state = c.state := by
  unfold writeFlag
  split <;> rfl

theorem writeFlag_fst_isCache (c : Config σ α) (b : Bool) :
    ((writeFlag (ε := ε) c b).1).isCache = c.isCache := by
  unfold writeFlag
  split <;> rfl

theorem writeFlag_fst_pending (c : Config σ α) (b : Bool) :
    ((writeFlag (ε := ε) c b).1).pending = c.pending := by
  unfold writeFlag
  split <;> rfl

theorem writeFlag_fst_controller (c : Config σ α) (b : Bool) :
    ((writeFlag (ε := ε) c b).1).controller = c.controller := by
  unfold writeFlag
  split <;> rfl

theorem writeFlag_fst_nextId (c : Config σ α) (b : Bool) :
    ((writeFlag (ε := ε) c b).1).nextId = c.nextId := by
  unfold writeFlag
  split <;> rfl

theorem writeFlag_fst_transitioning (c : Config σ α) (b : Bool) :
    ((writeFlag (ε := ε) c b).1).transitioning = b := by
  unfold writeFlag
  split
  · assumption
  · rfl

theorem asyncPath_cfg_pending (M : SM σ α ε) (c : Config σ α) (s : σ) (a : α)
    (hs : HookSet σ α) :
    (asyncPath M c s a hs).cfg.pending = c.pending ++ [⟨c.nextId, s, a, false⟩] := by
  unfold asyncPath writeFlag
  dsimp only
  split <;> split <;> rfl

theorem asyncPath_cfg_transitioning (M : SM σ α ε) (c : Config σ α) (s : σ) (a : α)
    (hs : HookSet σ α) :
    (asyncPath M c s a hs).cfg.transitioning = true := by
  unfold asyncPath writeFlag
  dsimp only
  split <;> split
  · assumption
  · rfl
  · assumption
  · rfl

theorem asyncPath_cfg_controller (M : SM σ α ε) (c : Config σ α) (s : σ) (a : α)
    (hs : HookSet σ α) :
    (asyncPath M c s a hs).cfg.controller =
      (if M.asyncMode = AsyncMode.abort then some c.nextId else c.controller) := by
  unfold asyncPath writeFlag
  dsimp only
  split <;> split <;> rfl

theorem asyncPath_cfg_nextId (M : SM σ α ε) (c : Config σ α) (s : σ) (a : α)
    (hs : HookSet σ α) :
    (asyncPath M c s a hs).cfg.nextId = c.nextId + 1 := by
  unfold asyncPath writeFlag
  dsimp only
  split <;> split <;> rfl

/-! ### The engine invariant

Facts that hold in every reachable configuration, established by induction
over the event sequence; the abort-mode claims (which pending transition the
`AbortController` designates, which one may still publish) rest on them. -/

theorem inv_initConfig (M : SM σ α ε) (s0 : σ) : Inv M (initConfig M s0) := by
  constructor <;> simp [initConfig]

theorem inv_publishState (M : SM σ α ε) (c : Config σ α) (v : σ) (h : Inv M c) :
    Inv M (publishState M c v) :=
  ⟨h.idsLt, h.sorted, h.live, h.actl, h.cmax, h.bempty, h.blen, h.bnoab⟩

theorem inv_syncPath (M : SM σ α ε) (c : Config σ α) (s n : σ) (a : α) (hs : HookSet σ α)
    (h : Inv M c) : Inv M (syncPath M c s n a hs).cfg :=
  inv_publishState M c n h

theorem inv_errorReturn (M : SM σ α ε) (c : Config σ α) (s : σ) (a : α) (e : ε)
    (h : Inv M c) : Inv M (errorReturn M c s a e).cfg := by
  unfold errorReturn
  split
  · exact inv_publishState M c _ h
  · exact h

theorem inv_asyncPath (M : SM σ α ε) (c : Config σ α) (s : σ) (a : α) (hs : HookSet σ α)
    (h : Inv M c)
    (hb : M.asyncMode = AsyncMode.block → c.pending = [])
    (ha : M.asyncMode = AsyncMode.abort → ∀ p ∈ c.pending, p.aborted = true) :
    Inv M (asyncPath M c s a hs).cfg := by
  constructor
  case idsLt =>
    intro p hp
    rw [asyncPath_cfg_pending] at hp
    rw [asyncPath_cfg_nextId]
    rcases List.mem_append.mp hp with h1 | h1
    · exact Nat.lt_succ_of_lt (h.idsLt p h1)
    · rw [List.mem_singleton.mp h1]
      exact Nat.lt_succ_self _
  case sorted =>
    rw [asyncPath_cfg_pending]
    refine List.pairwise_append.mpr ⟨h.sorted, List.pairwise_singleton _ _, ?_⟩
    intro p hp q hq
    rw [List.mem_singleton.mp hq]
    exact h.idsLt p hp
  case live =>
    intro p hp _
    exact asyncPath_cfg_transitioning M c s a hs
  case actl =>
    intro hm p hp hab
    rw [asyncPath_cfg_pending] at hp
    rw [asyncPath_cfg_controller, if_pos hm]
    rcases List.mem_append.mp hp with h1 | h1
    · rw [ha hm p h1] at hab
      exact Bool.noConfusion hab
    · rw [List.mem_singleton.mp h1]
  case cmax =>
    intro hm j hj p hp
    rw [asyncPath_cfg_controller, if_pos hm] at hj
    rw [asyncPath_cfg_pending] at hp
    injection hj with hj
    subst hj
    rcases List.mem_append.mp hp with h1 | h1
    · exact Nat.le_of_lt (h.idsLt p h1)
    · rw [List.mem_singleton.mp h1]
  case bempty =>
    intro _ hf
    rw [asyncPath_cfg_transitioning] at hf
    exact Bool.noConfusion hf
  case blen =>
    intro hm
    rw [asyncPath_cfg_pending, hb hm]
    simp
  case bnoab =>
    intro hm p hp
    rw [asyncPath_cfg_pending, hb hm] at hp
    have hp2 : p = ⟨c.nextId, s, a, false⟩ := by simpa using hp
    rw [hp2]

theorem inv_dispatchBody (M : SM σ α ε) (c : Config σ α) (a : α) (h : Inv M c)
    (hb : M.asyncMode = AsyncMode.block → c.pending = [])
    (ha : M.asyncMode = AsyncMode.abort → ∀ p ∈ c.pending, p.aborted = true) :
    Inv M (dispatchBody M c a).cfg := by
  unfold dispatchBody
  dsimp only
  split
  · exact inv_syncPath M c _ _ a _ h
  · split
    · exact inv_syncPath M c _ _ a _ h
    · exact inv_errorReturn M c _ a _ h
    · exact inv_asyncPath M c _ a _ h hb ha

theorem inv_abortCurrent (M : SM σ α ε) (c : Config σ α)
    (hm : M.asyncMode = AsyncMode.abort) (h : Inv M c) : Inv M (abortCurrent c) := by
  constructor
  case idsLt =>
    intro q hq
    obtain ⟨p, hp, hid, _⟩ := abortCurrent_pending_mem c q hq
    rw [abortCurrent_nextId, hid]
    exact h.idsLt p hp
  case sorted =>
    cases hc : c.controller with
    | none =>
      rw [abortCurrent_pending_none c hc]
      exact h.sorted
    | some j =>
      rw [abortCurrent_pending_some c j hc]
      refine List.pairwise_map.mpr (h.sorted.imp ?_)
      intro p q hpq
      rw [markAbort_id, markAbort_id]
      exact hpq
  case live =>
    intro q hq hab
    obtain ⟨p, hp, _, hfa⟩ := abortCurrent_pending_mem c q hq
    rw [abortCurrent_transitioning]
    exact h.live p hp (hfa hab).2.1
  case actl =>
    intro _ q hq hab
    obtain ⟨p, hp, hid, hfa⟩ := abortCurrent_pending_mem c q hq
    rw [abortCurrent_controller, hid]
    exact h.actl hm p hp (hfa hab).2.1
  case cmax =>
    intro _ j hj q hq
    obtain ⟨p, hp, hid, _⟩ := abortCurrent_pending_mem c q hq
    rw [abortCurrent_controller] at hj
    rw [hid]
    exact h.cmax hm j hj p hp
  case bempty =>
    intro hbm
    exact absurd (hm.symm.trans hbm) (by decide)
  case blen =>
    intro hbm
    exact absurd (hm.symm.trans hbm) (by decide)
  case bnoab =>
    intro hbm
    exact absurd (hm.symm.trans hbm) (by decide)

theorem allAborted_abortCurrent (M : SM σ α ε) (c : Config σ α)
    (hm : M.asyncMode = AsyncMode.abort) (h : Inv M c) :
    ∀ p ∈ (abortCurrent c).pending, p.aborted = true := by
  intro q hq
  cases hab : q.aborted with
  | true => rfl
  | false =>
    obtain ⟨p, hp, _, hfa⟩ := abortCurrent_pending_mem c q hq
    obtain ⟨_, hpa, hne⟩ := hfa hab
    exact absurd (h.actl hm p hp hpa) hne

theorem inv_dispatch (M : SM σ α ε) (c : Config σ α) (a : α) (h : Inv M c) :
    Inv M (dispatch M c a).cfg := by
  unfold dispatch
  cases hfl : c.transitioning with
  | true =>
    rw [if_pos rfl]
    cases hm : M.asyncMode with
    | block => exact h
    | abort =>
      exact inv_dispatchBody M (abortCurrent c) a (inv_abortCurrent M c hm h)
        (fun hbm => absurd (hm.symm.trans hbm) (by decide))
        (fun _ => allAborted_abortCurrent M c hm h)
  | false =>
    rw [if_neg (by simp)]
    refine inv_dispatchBody M c a h (fun hbm => h.bempty hbm hfl) ?_
    intro _ p hp
    cases hab : p.aborted with
    | true => rfl
    | false =>
      have hlt := h.live p hp hab
      rw [hfl] at hlt
      exact Bool.noConfusion hlt

theorem length_le_one_eq_singleton {β : Type _} (l : List β) (p : β)
    (hlen : l.length ≤ 1) (hp : p ∈ l) : l = [p] := by
  cases l with
  | nil => exact absurd hp (List.not_mem_nil p)
  | cons q t =>
    cases t with
    | nil => rw [List.mem_singleton.mp hp]
    | cons r t2 => simp at hlen

/-- Invariant for the configuration left behind by a settling non-aborted
transition: the settled entry is removed, the flag is cleared, and every
remaining pending transition is already aborted. -/
theorem inv_settled (M : SM σ α ε) (c c' : Config σ α) (i : Nat) (h : Inv M c)
    (hp : c'.pending = c.pending.filter (fun q => q.id != i))
    (_hf : c'.transitioning = false)
    (hc : c'.controller = c.controller)
    (hn : c'.nextId = c.nextId)
    (hall : ∀ q ∈ c'.pending, q.aborted = true)
    (hb : M.asyncMode = AsyncMode.block → c'.pending = []) :
    Inv M c' := by
  constructor
  case idsLt =>
    intro q hq
    rw [hp] at hq
    rw [hn]
    exact h.idsLt q (List.mem_of_mem_filter hq)
  case sorted =>
    rw [hp]
    exact h.sorted.sublist (List.filter_sublist _)
  case live =>
    intro q hq hab
    rw [hall q hq] at hab
    exact Bool.noConfusion hab
  case actl =>
    intro _ q hq hab
    rw [hall q hq] at hab
    exact Bool.noConfusion hab
  case cmax =>
    intro hm j hj q hq
    rw [hc] at hj
    rw [hp] at hq
    exact h.cmax hm j hj q (List.mem_of_mem_filter hq)
  case bempty =>
    intro hm _
    exact hb hm
  case blen =>
    intro hm
    rw [hb hm]
    simp
  case bnoab =>
    intro hm q hq
    rw [hb hm] at hq
    exact absurd hq (List.not_mem_nil q)

theorem inv_settle (M : SM σ α ε) (c : Config σ α) (i : Nat) (out : Outcome σ ε)
    (h : Inv M c) : Inv M (settle M c i out).cfg := by
  unfold settle
  cases hfind : c.pending.find? (fun p => p.id == i) with
  | none => exact h
  | some p =>
    have hpmem : p ∈ c.pending := List.mem_of_find?_eq_some hfind
    have hpid : p.id = i := by
      have h2 := List.find?_some hfind
      simpa using h2
    have hc0 : Inv M { c with pending := c.pending.filter (fun q => q.id != i) } := by
      constructor
      case idsLt =>
        intro q hq
        exact h.idsLt q (List.mem_of_mem_filter hq)
      case sorted => exact h.sorted.sublist (List.filter_sublist _)
      case live =>
        intro q hq hab
        exact h.live q (List.mem_of_mem_filter hq) hab
      case actl =>
        intro hm q hq hab
        exact h.actl hm q (List.mem_of_mem_filter hq) hab
      case cmax =>
        intro hm j hj q hq
        exact h.cmax hm j hj q (List.mem_of_mem_filter hq)
      case bempty =>
        intro hm hf
        rw [h.bempty hm hf]
        rfl
      case blen =>
        intro hm
        exact le_trans (List.length_filter_le _ _) (h.blen hm)
      case bnoab =>
        intro hm q hq
        exact h.bnoab hm q (List.mem_of_mem_filter hq)
    dsimp only
    split
    · exact hc0
    · next hnab =>
      have hpab : p.aborted = false := by
        revert hnab
        cases p.aborted <;> simp
      have hall : ∀ q ∈ c.pending.filter (fun q => q.id != i), q.aborted = true := by
        intro q hq
        obtain ⟨hqmem, hqne⟩ := List.mem_filter.mp hq
        cases hqab : q.aborted with
        | true => rfl
        | false =>
          cases hmode : M.asyncMode with
          | abort =>
            have h1 := h.actl hmode q hqmem hqab
            have h2 := h.actl hmode p hpmem hpab
            rw [h1] at h2
            injection h2 with h3
            rw [hpid] at h3
            simp [h3] at hqne
          | block =>
            have hsing := length_le_one_eq_singleton c.pending p (h.blen hmode) hpmem
            rw [hsing] at hqmem
            rw [List.mem_singleton.mp hqmem, hpid] at hqne
            simp at hqne
      have hbe : M.asyncMode = AsyncMode.block →
          c.pending.filter (fun q => q.id != i) = [] := by
        intro hmode
        have hsing := length_le_one_eq_singleton c.pending p (h.blen hmode) hpmem
        rw [hsing]
        simp [hpid]
      cases out with
      | resolve n =>
        exact inv_settled M c _ i h (writeFlag_fst_pending _ _)
          (writeFlag_fst_transitioning _ _) (writeFlag_fst_controller _ _)
          (writeFlag_fst_nextId _ _)
          (by simp only [writeFlag_fst_pending, publishState]; exact hall)
          (by intro hm; simp only [writeFlag_fst_pending, publishState]; exact hbe hm)
      | reject e =>
        cases hoe : M.onError with
        | some g =>
          exact inv_settled M c _ i h (writeFlag_fst_pending _ _)
            (writeFlag_fst_transitioning _ _) (writeFlag_fst_controller _ _)
            (writeFlag_fst_nextId _ _)
            (by simp only [writeFlag_fst_pending, publishState]; exact hall)
            (by intro hm; simp only [writeFlag_fst_pending, publishState]; exact hbe hm)
        | none =>
          exact inv_settled M c _ i h (writeFlag_fst_pending _ _)
            (writeFlag_fst_transitioning _ _) (writeFlag_fst_controller _ _)
            (writeFlag_fst_nextId _ _)
            (by simp only [writeFlag_fst_pending, publishState]; exact hall)
            (by intro hm; simp only [writeFlag_fst_pending, publishState]; exact hbe hm)

theorem inv_step (M : SM σ α ε) (c : Config σ α) (e : EvtIn σ α ε) (h : Inv M c) :
    Inv M (step M c e).cfg := by
  cases e with
  | act a => exact inv_dispatch M c a h
  | settleAt i out => exact inv_settle M c i out h

theorem inv_run (M : SM σ α ε) (c : Config σ α) (es : List (EvtIn σ α ε)) (h : Inv M c) :
    Inv M (run M c es) := by
  induction es generalizing c with
  | nil => exact h
  | cons e es ih => exact ih (step M c e).cfg (inv_step M c e h)

theorem inv_reach (M : SM σ α ε) (s0 : σ) (es : List (EvtIn σ α ε)) :
    Inv M (reach M s0 es) :=
  inv_run M (initConfig M s0) es (inv_initConfig M s0)

/-! ### The derived `is` stores -/

theorem abortCurrent_isCache (c : Config σ α) : (abortCurrent c).isCache = c.isCache := by
  unfold abortCurrent
  cases c.controller <;> rfl

theorem isCache_dispatchBody (M : SM σ α ε) (c : Config σ α) (a : α)
    (h : c.isCache = mkIs M c.state) :
    (dispatchBody M c a).cfg.isCache = mkIs M (dispatchBody M c a).cfg.state := by
  unfold dispatchBody
  dsimp only
  split
  · rfl
  · split
    · rfl
    · unfold errorReturn
      split
      · rfl
      · exact h
    · rfl

theorem isCache_dispatch (M : SM σ α ε) (c : Config σ α) (a : α)
    (h : c.isCache = mkIs M c.state) :
    (dispatch M c a).cfg.isCache = mkIs M (dispatch M c a).cfg.state := by
  unfold dispatch
  cases hfl : c.transitioning with
  | true =>
    rw [if_pos rfl]
    cases M.asyncMode with
    | block => exact h
    | abort =>
      apply isCache_dispatchBody
      rw [abortCurrent_isCache, abortCurrent_state]
      exact h
  | false =>
    rw [if_neg (by simp)]
    exact isCache_dispatchBody M c a h

theorem isCache_settle (M : SM σ α ε) (c : Config σ α) (i : Nat) (out : Outcome σ ε)
    (h : c.isCache = mkIs M c.state) :
    (settle M c i out).cfg.isCache = mkIs M (settle M c i out).cfg.state := by
  unfold settle
  cases hfind : c.pending.find? (fun p => p.id == i) with
  | none => exact h
  | some p =>
    dsimp only
    split
    · exact h
    · cases out with
      | resolve n =>
        rw [writeFlag_fst_isCache, writeFlag_fst_state]
        rfl
      | reject e =>
        cases hoe : M.onError with
        | some g => rfl
        | none =>
          rw [writeFlag_fst_isCache, writeFlag_fst_state]
          exact h

theorem isCache_reach (M : SM σ α ε) (s0 : σ) (es : List (EvtIn σ α ε)) :
    (reach M s0 es).isCache = mkIs M (reach M s0 es).state := by
  unfold reach
  have hstep : ∀ (c : Config σ α) (e : EvtIn σ α ε), c.isCache = mkIs M c.state →
      (step M c e).cfg.isCache = mkIs M (step M c e).cfg.state := by
    intro c e hc
    cases e with
    | act a => exact isCache_dispatch M c a hc
    | settleAt i out => exact isCache_settle M c i out hc
  have hrun : ∀ (es2 : List (EvtIn σ α ε)) (c : Config σ α), c.isCache = mkIs M c.state →
      (run M c es2).isCache = mkIs M (run M c es2).state := by
    intro es2
    induction es2 with
    | nil => intro c hc; exact hc
    | cons e es2 ih => intro c hc; exact ih (step M c e).cfg (hstep c e hc)
  exact hrun es (initConfig M s0) rfl

theorem assoc_map_fst {γ δ : Type _} (f : String → δ) (l : List (String × γ)) (d : String)
    (hd : d ∈ l.map Prod.fst) :
    assoc d (l.map (fun kv => (kv.1, f kv.1))) = some (f d) := by
  induction l with
  | nil => exact absurd hd (by simp)
  | cons kv rest ih =>
    simp only [List.map_cons, assoc]
    split
    · next hk => rw [show kv.1 = d from hk]
    · next hk =>
      apply ih
      have hd2 : d = kv.1 ∨ d ∈ rest.map Prod.fst := by
        rw [List.map_cons] at hd
        exact List.mem_cons.mp hd
      rcases hd2 with h1 | h1
      · exact absurd h1.symm hk
      · exact h1

theorem assoc_mkIs (M : SM σ α ε) (v : σ) (d : String) (hd : d ∈ M.table.map Prod.fst) :
    assoc d (mkIs M v) = some (M.stype v == d) :=
  assoc_map_fst (fun k => M.stype v == k) M.table d hd

theorem mkIs_keys (M : SM σ α ε) (v : σ) :
    (mkIs M v).map Prod.fst = M.table.map Prod.fst := by
  unfold mkIs
  simp

/-! ### Settlement characterizations -/

theorem settle_not_found (M : SM σ α ε) (c : Config σ α) (i : Nat) (out : Outcome σ ε)
    (hfind : c.pending.find? (fun p => p.id == i) = none) :
    settle M c i out = ⟨c, [], none⟩ := by
  unfold settle
  cases hfind2 : c.pending.find? (fun p => p.id == i) with
  | none => rfl
  | some p =>
    rw [hfind2] at hfind
    exact Option.noConfusion hfind

theorem settle_aborted_noop (M : SM σ α ε) (c : Config σ α) (i : Nat) (out : Outcome σ ε)
    (p : Pending σ α)
    (hfind : c.pending.find? (fun q => q.id == i) = some p)
    (hab : p.aborted = true) :
    settle M c i out =
      ⟨{ c with pending := c.pending.filter (fun q => q.id != i) }, [], none⟩ := by
  unfold settle
  cases hfind2 : c.pending.find? (fun q => q.id == i) with
  | none =>
    rw [hfind2] at hfind
    exact Option.noConfusion hfind
  | some p2 =>
    rw [hfind2] at hfind
    injection hfind with hp
    subst hp
    dsimp only
    rw [if_pos hab]

theorem settle_resolve_found (M : SM σ α ε) (c : Config σ α) (i : Nat) (p : Pending σ α)
    (n : σ)
    (hfind : c.pending.find? (fun q => q.id == i) = some p)
    (hab : p.aborted = false) :
    (settle M c i (Outcome.resolve n)).cfg.state = n ∧
    (settle M c i (Outcome.resolve n)).cfg.transitioning = false := by
  unfold settle
  cases hfind2 : c.pending.find? (fun q => q.id == i) with
  | none =>
    rw [hfind2] at hfind
    exact Option.noConfusion hfind
  | some p2 =>
    rw [hfind2] at hfind
    injection hfind with hp
    subst hp
    dsimp only
    rw [if_neg (by simp [hab])]
    constructor
    · rw [writeFlag_fst_state]
      rfl
    · exact writeFlag_fst_transitioning _ _

/-- After a dispatch whose previously pending transitions are all aborted,
any pending entry started earlier (id below the dispatch-time `nextId`) is
still aborted. -/
theorem dispatchBody_pending_super (M : SM σ α ε) (c : Config σ α) (a : α)
    (hall : ∀ p ∈ c.pending, p.aborted = true) :
    ∀ p ∈ (dispatchBody M c a).cfg.pending, p.id < c.nextId → p.aborted = true := by
  unfold dispatchBody
  dsimp only
  split
  · intro p hp _
    exact hall p hp
  · split
    · intro p hp _
      exact hall p hp
    · unfold errorReturn
      split
      · intro p hp _
        exact hall p hp
      · intro p hp _
        exact hall p hp
    · intro p hp hlt
      rw [asyncPath_cfg_pending] at hp
      rcases List.mem_append.mp hp with h1 | h1
      · exact hall p h1
      · rw [List.mem_singleton.mp h1] at hlt
        exact absurd hlt (Nat.lt_irrefl _)

/-- C3 (amended): for a state S and action A with no registered transition
function and the transitioning flag false, `dispatch(A)` leaves the published
state exactly S, leaves the flag false, raises nothing, and fires no
`onAsyncTransition` hook; but the missing transition is handled as a
synchronous identity transition, so `onExit(S, S, A)` and `onEnter(S, S, A)`
do fire when hooks are registered for S's discriminant, strictly before S is
republished. -/
theorem missing_transition_keeps_state_and_flag
    (M : SM σ α ε) (c : Config σ α) (a : α)
    (hflag : c.transitioning = false)
    (hred : tableLookup M (M.stype c.state) (M.atype a) = none) :
    (dispatch M c a).cfg.state = c.state ∧
    (dispatch M c a).cfg.transitioning = false ∧
    (dispatch M c a).thrown = none ∧
    (∀ s b, Ev.asyncH s b ∉ (dispatch M c a).evs) ∧
    (dispatch M c a).evs =
      (if (hookAt M (M.stype c.state)).hasOnExit
        then [Ev.exitH c.state c.state a] else []) ++
      (if (hookAt M (M.stype c.state)).hasOnEnter
        then [Ev.enterH c.state c.state a] else []) ++
      [Ev.publish c.state] := by
  have hd : dispatch M c a = syncPath M c c.state c.state a (hookAt M (M.stype c.state)) := by
    simp [dispatch, hflag, dispatchBody, hred]
  rw [hd]
  refine ⟨rfl, hflag, rfl, ?_, rfl⟩
  intro s b
  simp only [syncPath, List.mem_append]
  split <;> split <;> simp

/-- C5: a synchronous transition from state S1 via action A whose registered
function returns S2 fires `onExit(S1, S2, A)` (for S1's discriminant, if
registered) then `onEnter(S1, S2, A)` (for S2's discriminant, if registered),
in that order, both strictly before S2 is published; the transitioning flag
is false before, after and at every point in between (no flag write occurs). -/
theorem sync_transition_hooks_then_publish
    (M : SM σ α ε) (c : Config σ α) (a : α) (f : σ → α → RVal σ ε) (n : σ)
    (hflag : c.transitioning = false)
    (hred : tableLookup M (M.stype c.state) (M.atype a) = some f)
    (hres : f c.state a = RVal.next n) :
    (dispatch M c a).cfg.state = n ∧
    (dispatch M c a).cfg.transitioning = false ∧
    (dispatch M c a).thrown = none ∧
    (dispatch M c a).evs =
      (if (hookAt M (M.stype c.state)).hasOnExit
        then [Ev.exitH c.state n a] else []) ++
      (if (hookAt M (M.stype n)).hasOnEnter
        then [Ev.enterH c.state n a] else []) ++
      [Ev.publish n] ∧
    (∀ b, Ev.setFlag b ∉ (dispatch M c a).evs) := by
  have hd : dispatch M c a = syncPath M c c.state n a (hookAt M (M.stype c.state)) := by
    simp [dispatch, hflag, dispatchBody, hred, hres]
  rw [hd]
  refine ⟨rfl, hflag, rfl, rfl, ?_⟩
  intro b
  simp only [syncPath, List.mem_append]
  split <;> split <;> simp

/-- C6: in block mode, a dispatch issued while the transitioning flag is true
is discarded entirely: the configuration is unchanged, no event is emitted,
nothing is raised, and any later settlement of the pending transition behaves
exactly as it would have without the discarded dispatch. -/
theorem block_mode_discards_dispatch
    (M : SM σ α ε) (c : Config σ α) (a : α)
    (hM : M.asyncMode = AsyncMode.block)
    (hflag : c.transitioning = true) :
    dispatch M c a = ⟨c, [], none⟩ ∧
    ∀ i out, settle M (dispatch M c a).cfg i out = settle M c i out := by
  have h1 : dispatch M c a = ⟨c, [], none⟩ := by
    simp [dispatch, hflag, hM]
  exact ⟨h1, fun i out => by rw [h1]⟩

/-- C7: when the registered transition function throws synchronously (and the
dispatch is not discarded by block mode), then with `onError` configured the
published state becomes exactly `onError(error, state-at-dispatch-time,
action)` and nothing is raised to the caller; without `onError`, `dispatch`
raises the raw error and the published state is unchanged. -/
theorem sync_throw_error_recovery
    (M : SM σ α ε) (c : Config σ α) (a : α) (f : σ → α → RVal σ ε) (e : ε)
    (hguard : ¬(c.transitioning = true ∧ M.asyncMode = AsyncMode.block))
    (hred : tableLookup M (M.stype c.state) (M.atype a) = some f)
    (hres : f c.state a = RVal.thrown e) :
    (∀ h, M.onError = some h →
      (dispatch M c a).cfg.state = h e c.state a ∧ (dispatch M c a).thrown = none) ∧
    (M.onError = none →
      (dispatch M c a).thrown = some e ∧ (dispatch M c a).cfg.state = c.state) := by
  cases hfl : c.transitioning with
  | false =>
    have hd : dispatch M c a = dispatchBody M c a := by
      simp [dispatch, hfl]
    simp only [hd, dispatchBody, hred, hres, errorReturn, publishState]
    constructor
    · intro h hoe
      simp [hoe]
    · intro hoe
      simp [hoe]
  | true =>
    cases hmode : M.asyncMode with
    | block => exact absurd ⟨hfl, hmode⟩ hguard
    | abort =>
      have hd : dispatch M c a = dispatchBody M (abortCurrent c) a := by
        simp [dispatch, hfl, hmode]
      have hs : (abortCurrent c).state = c.state := abortCurrent_state c
      simp only [hd, dispatchBody, hs, hred, hres, errorReturn, publishState]
      constructor
      · intro h hoe
        simp [hoe]
      · intro hoe
        simp [hoe, hs]

/-- C9: For the concrete machine with states {off} and {on, level} and
actions toggle/up/down: starting at {off}, dispatching toggle yields
{on, level: 1}; from {on, level: 1}, dispatching up three times yields
{on, level: 3} and a fourth up leaves the state {on, level: 3}; from
{on, level: 1}, dispatching down yields {off}. -/
theorem light_switch_scenario :
    (reach syncMachine LState.off [EvtIn.act LAct.toggle]).state = LState.on 1 ∧
    (reach syncMachine LState.off
      ([LAct.toggle, LAct.up, LAct.up, LAct.up].map EvtIn.act)).state = LState.on 3 ∧
    (reach syncMachine LState.off
      ([LAct.toggle, LAct.up, LAct.up, LAct.up, LAct.up].map EvtIn.act)).state = LState.on 3 ∧
    (reach syncMachine LState.off
      [EvtIn.act LAct.toggle, EvtIn.act LAct.down]).state = LState.off := by
  decide

/-- C2 (code-bug exhibit): in abort mode, dispatching the synchronous `halt`
while the async `go` transition is pending aborts the pending transition but
takes the synchronous path, which never clears the `transitioning` flag; after
the aborted transition settles (a no-op), the flag is still `true` although no
deferred transition remains pending — contradicting the documented meaning of
the `transitioning` store. -/
theorem transitioning_stuck_true_after_abort_then_sync :
    (reach abortBugMachine BS.a
      [EvtIn.act BA.go, EvtIn.act BA.halt,
       EvtIn.settleAt 0 (Outcome.resolve BS.b)]).transitioning = true ∧
    (reach abortBugMachine BS.a
      [EvtIn.act BA.go, EvtIn.act BA.halt,
       EvtIn.settleAt 0 (Outcome.resolve BS.b)]).pending = [] := by
  decide

/-- C8: for every state discriminant d registered as a top-level key of the
transition table, at every reachable observation point the derived `is[d]`
store holds exactly (current published state's discriminant == d); since this
holds after an arbitrary sequence of dispatches and settlements, every
dispatch and every async settlement preserves the equivalence. -/
theorem is_view_matches_state_discriminant (M : SM σ α ε) (s0 : σ)
    (es : List (EvtIn σ α ε)) (d : String) (hd : d ∈ M.table.map Prod.fst) :
    assoc d (reach M s0 es).isCache = some (M.stype (reach M s0 es).state == d) := by
  rw [isCache_reach]
  exact assoc_mkIs M _ d hd

theorem is_view_matches_state_discriminant_w :
    assoc "off" (reach syncMachine LState.off [EvtIn.act LAct.toggle]).isCache =
      some (syncMachine.stype (reach syncMachine LState.off [EvtIn.act LAct.toggle]).state
        == "off") :=
  is_view_matches_state_discriminant syncMachine LState.off [EvtIn.act LAct.toggle] "off"
    (by decide)

/-- C10: at every reachable observation point, the domain of the `is` mapping
is exactly the set of top-level keys of the transition table; in particular a
state discriminant of the union with no table entry has no `is` store, even
when the machine occupies that state — exhibited by a machine whose table
registers only "off" reaching an "on" state with no is-store for "on". -/
theorem is_domain_is_table_keys :
    (∀ (σ2 α2 ε2 : Type) (M : SM σ2 α2 ε2) (s0 : σ2) (es : List (EvtIn σ2 α2 ε2)),
      ((reach M s0 es).isCache.map Prod.fst) = M.table.map Prod.fst) ∧
    (lstype (reach onlyOffMachine LState.off [EvtIn.act LAct.toggle]).state = "on" ∧
     assoc "on" (reach onlyOffMachine LState.off [EvtIn.act LAct.toggle]).isCache = none ∧
     assoc "off" (reach onlyOffMachine LState.off [EvtIn.act LAct.toggle]).isCache
       = some false) := by
  constructor
  · intro σ2 α2 ε2 M s0 es
    rw [isCache_reach, mkIs_keys]
  · exact ⟨by decide, by decide, by decide⟩

theorem asyncPath_hook_published (M : SM σ α ε) (c : Config σ α) (s : σ) (a : α)
    (hs : HookSet σ α) (g : σ → α → Option σ) (i : σ)
    (hg : hs.onAsyncTransition = some g) (hgi : g s a = some i) :
    (asyncPath M c s a hs).cfg.state = i ∧ Ev.publish i ∈ (asyncPath M c s a hs).evs := by
  constructor
  · unfold asyncPath
    dsimp only
    rw [hg]
    dsimp only
    rw [hgi]
    rfl
  · unfold asyncPath
    dsimp only
    rw [hg]
    dsimp only
    rw [hgi]
    simp

/-- C4: from a reachable idle configuration (transitioning = false),
dispatching an action whose registered transition function returns a
deferred value sets the transitioning flag to true already at the end of the
(synchronous) dispatch call; if the dispatch-time state discriminant's
onAsyncTransition hook is defined and returns an interim state, that interim
state is the published state at the end of the dispatch call, i.e. strictly
before any settlement; and when the started transition settles successfully
with next state N, the published state equals N and the flag is false. -/
theorem async_transition_flag_interim_resolution
    (M : SM σ α ε) (s0 : σ) (es : List (EvtIn σ α ε)) (a : α)
    (f : σ → α → RVal σ ε)
    (hflag : (reach M s0 es).transitioning = false)
    (hred : tableLookup M (M.stype (reach M s0 es).state) (M.atype a) = some f)
    (hres : f (reach M s0 es).state a = RVal.promise) :
    (dispatch M (reach M s0 es) a).cfg.transitioning = true ∧
    (∀ g i, (hookAt M (M.stype (reach M s0 es).state)).onAsyncTransition = some g →
      g (reach M s0 es).state a = some i →
      (dispatch M (reach M s0 es) a).cfg.state = i ∧
      Ev.publish i ∈ (dispatch M (reach M s0 es) a).evs) ∧
    (∀ n, (settle M (dispatch M (reach M s0 es) a).cfg (reach M s0 es).nextId
        (Outcome.resolve n)).cfg.state = n ∧
      (settle M (dispatch M (reach M s0 es) a).cfg (reach M s0 es).nextId
        (Outcome.resolve n)).cfg.transitioning = false) := by
  have hinv : Inv M (reach M s0 es) := inv_reach M s0 es
  have hd : dispatch M (reach M s0 es) a =
      asyncPath M (reach M s0 es) (reach M s0 es).state a
        (hookAt M (M.stype (reach M s0 es).state)) := by
    simp [dispatch, hflag, dispatchBody, hred, hres]
  refine ⟨?_, ?_, ?_⟩
  · rw [hd, asyncPath_cfg_transitioning]
  · intro g i hg hgi
    rw [hd]
    exact asyncPath_hook_published M _ _ a _ g i hg hgi
  · intro n
    have hfind : ((dispatch M (reach M s0 es) a).cfg.pending).find?
        (fun p => p.id == (reach M s0 es).nextId) =
        some ⟨(reach M s0 es).nextId, (reach M s0 es).state, a, false⟩ := by
      rw [hd, asyncPath_cfg_pending, List.find?_append]
      have h1 : ((reach M s0 es).pending).find?
          (fun p => p.id == (reach M s0 es).nextId) = none := by
        rw [List.find?_eq_none]
        intro p hp
        simp only [beq_iff_eq]
        exact Nat.ne_of_lt (hinv.idsLt p hp)
      rw [h1]
      simp
    exact settle_resolve_found M _ _ _ n hfind rfl

theorem async_transition_flag_interim_resolution_w :
    (dispatch loadMachine (reach loadMachine BS.a []) BA.go).cfg.transitioning = true ∧
    (∀ g i, (hookAt loadMachine
        (loadMachine.stype (reach loadMachine BS.a []).state)).onAsyncTransition = some g →
      g (reach loadMachine BS.a []).state BA.go = some i →
      (dispatch loadMachine (reach loadMachine BS.a []) BA.go).cfg.state = i ∧
      Ev.publish i ∈ (dispatch loadMachine (reach loadMachine BS.a []) BA.go).evs) ∧
    (∀ n, (settle loadMachine (dispatch loadMachine (reach loadMachine BS.a []) BA.go).cfg
        (reach loadMachine BS.a []).nextId (Outcome.resolve n)).cfg.state = n ∧
      (settle loadMachine (dispatch loadMachine (reach loadMachine BS.a []) BA.go).cfg
        (reach loadMachine BS.a []).nextId
        (Outcome.resolve n)).cfg.transitioning = false) :=
  async_transition_flag_interim_resolution loadMachine BS.a [] BA.go goReducer rfl rfl rfl

/-- C1: in abort mode, over any reachable configuration: a dispatch issued
while the transitioning flag is true leaves every previously started pending
transition (id below the dispatch-time next id) aborted — the new dispatch
supersedes it; the settlement of a superseded (aborted) transition with any
outcome emits no events at all (no state publication, no onExit/onEnter, no
onError, no flag write) and leaves the published state and the transitioning
flag exactly as they were; and any settlement that does emit events is the
settlement of a non-aborted pending transition, which is the most recently
started of all pending transitions. -/
theorem abort_superseded_settlement_noop
    (M : SM σ α ε) (s0 : σ) (es : List (EvtIn σ α ε)) (a : α) (i : Nat)
    (out : Outcome σ ε)
    (hM : M.asyncMode = AsyncMode.abort) :
    ((reach M s0 es).transitioning = true →
      ∀ p ∈ (dispatch M (reach M s0 es) a).cfg.pending,
        p.id < (reach M s0 es).nextId → p.aborted = true) ∧
    ((∀ p ∈ (reach M s0 es).pending, p.id = i → p.aborted = true) →
      (settle M (reach M s0 es) i out).cfg.state = (reach M s0 es).state ∧
      (settle M (reach M s0 es) i out).cfg.transitioning
        = (reach M s0 es).transitioning ∧
      (settle M (reach M s0 es) i out).evs = []) ∧
    ((settle M (reach M s0 es) i out).evs ≠ [] →
      ∃ p ∈ (reach M s0 es).pending, p.id = i ∧ p.aborted = false ∧
        ∀ q ∈ (reach M s0 es).pending, q.id ≤ p.id) := by
  have hinv : Inv M (reach M s0 es) := inv_reach M s0 es
  refine ⟨?_, ?_, ?_⟩
  · intro hfl p hp hlt
    have hd : dispatch M (reach M s0 es) a
        = dispatchBody M (abortCurrent (reach M s0 es)) a := by
      simp [dispatch, hfl, hM]
    rw [hd] at hp
    exact dispatchBody_pending_super M _ a
      (allAborted_abortCurrent M (reach M s0 es) hM hinv) p hp
      (by rw [abortCurrent_nextId]; exact hlt)
  · intro hids
    cases hfind : (reach M s0 es).pending.find? (fun p => p.id == i) with
    | none =>
      rw [settle_not_found M _ i out hfind]
      exact ⟨rfl, rfl, rfl⟩
    | some p =>
      have hpmem := List.mem_of_find?_eq_some hfind
      have hpid : p.id = i := by simpa using List.find?_some hfind
      rw [settle_aborted_noop M _ i out p hfind (hids p hpmem hpid)]
      exact ⟨rfl, rfl, rfl⟩
  · intro hne
    cases hfind : (reach M s0 es).pending.find? (fun p => p.id == i) with
    | none =>
      rw [settle_not_found M _ i out hfind] at hne
      exact absurd rfl hne
    | some p =>
      cases hab : p.aborted with
      | true =>
        rw [settle_aborted_noop M _ i out p hfind hab] at hne
        exact absurd rfl hne
      | false =>
        have hpmem := List.mem_of_find?_eq_some hfind
        have hpid : p.id = i := by simpa using List.find?_some hfind
        exact ⟨p, hpmem, hpid, hab,
          fun q hq => hinv.cmax hM p.id (hinv.actl hM p hpmem hab) q hq⟩

theorem abort_superseded_settlement_noop_w :
    ((reach abortBugMachine BS.a [EvtIn.act BA.go]).transitioning = true →
      ∀ p ∈ (dispatch abortBugMachine (reach abortBugMachine BS.a [EvtIn.act BA.go])
          BA.halt).cfg.pending,
        p.id < (reach abortBugMachine BS.a [EvtIn.act BA.go]).nextId →
          p.aborted = true) ∧
    ((∀ p ∈ (reach abortBugMachine BS.a [EvtIn.act BA.go]).pending,
        p.id = 0 → p.aborted = true) →
      (settle abortBugMachine (reach abortBugMachine BS.a [EvtIn.act BA.go]) 0
        (Outcome.resolve BS.b)).cfg.state
        = (reach abortBugMachine BS.a [EvtIn.act BA.go]).state ∧
      (settle abortBugMachine (reach abortBugMachine BS.a [EvtIn.act BA.go]) 0
        (Outcome.resolve BS.b)).cfg.transitioning
        = (reach abortBugMachine BS.a [EvtIn.act BA.go]).transitioning ∧
      (settle abortBugMachine (reach abortBugMachine BS.a [EvtIn.act BA.go]) 0
        (Outcome.resolve BS.b)).evs = []) ∧
    ((settle abortBugMachine (reach abortBugMachine BS.a [EvtIn.act BA.go]) 0
        (Outcome.resolve BS.b)).evs ≠ [] →
      ∃ p ∈ (reach abortBugMachine BS.a [EvtIn.act BA.go]).pending, p.id = 0 ∧
        p.aborted = false ∧
        ∀ q ∈ (reach abortBugMachine BS.a [EvtIn.act BA.go]).pending, q.id ≤ p.id) :=
  abort_superseded_settlement_noop abortBugMachine BS.a [EvtIn.act BA.go] BA.halt 0
    (Outcome.resolve BS.b) rfl

/-- C3 counterexample: with hooks registered for state a's discriminant and
no transition function registered for (a, halt), dispatching halt from an
idle engine fires onExit(a, a, halt) and onEnter(a, a, halt) — refuting the
claim that no hooks fire on a missing transition. -/
theorem missing_transition_fires_hooks_cex :
    tableLookup hookMachine (hookMachine.stype BS.a) (hookMachine.atype BA.halt) = none ∧
    (initConfig hookMachine BS.a).transitioning = false ∧
    Ev.exitH BS.a BS.a BA.halt
      ∈ (dispatch hookMachine (initConfig hookMachine BS.a) BA.halt).evs ∧
    Ev.enterH BS.a BS.a BA.halt
      ∈ (dispatch hookMachine (initConfig hookMachine BS.a) BA.halt).evs := by
  exact ⟨rfl, rfl, by decide, by decide⟩

theorem missing_transition_keeps_state_and_flag_w :
    (dispatch hookMachine (initConfig hookMachine BS.a) BA.halt).cfg.state
      = (initConfig hookMachine BS.a).state ∧
    (dispatch hookMachine (initConfig hookMachine BS.a) BA.halt).cfg.transitioning
      = false ∧
    (dispatch hookMachine (initConfig hookMachine BS.a) BA.halt).thrown = none ∧
    (∀ s b, Ev.asyncH s b
      ∉ (dispatch hookMachine (initConfig hookMachine BS.a) BA.halt).evs) ∧
    (dispatch hookMachine (initConfig hookMachine BS.a) BA.halt).evs =
      (if (hookAt hookMachine
          (hookMachine.stype (initConfig hookMachine BS.a).state)).hasOnExit
        then [Ev.exitH (initConfig hookMachine BS.a).state
          (initConfig hookMachine BS.a).state BA.halt] else []) ++
      (if (hookAt hookMachine
          (hookMachine.stype (initConfig hookMachine BS.a).state)).hasOnEnter
        then [Ev.enterH (initConfig hookMachine BS.a).state
          (initConfig hookMachine BS.a).state BA.halt] else []) ++
      [Ev.publish (initConfig hookMachine BS.a).state] :=
  missing_transition_keeps_state_and_flag hookMachine (initConfig hookMachine BS.a)
    BA.halt rfl rfl

theorem sync_transition_hooks_then_publish_w :
    (dispatch hookSyncMachine (initConfig hookSyncMachine BS.a) BA.halt).cfg.state
      = BS.b ∧
    (dispatch hookSyncMachine (initConfig hookSyncMachine BS.a) BA.halt).cfg.transitioning
      = false ∧
    (dispatch hookSyncMachine (initConfig hookSyncMachine BS.a) BA.halt).thrown = none ∧
    (dispatch hookSyncMachine (initConfig hookSyncMachine BS.a) BA.halt).evs =
      (if (hookAt hookSyncMachine
          (hookSyncMachine.stype (initConfig hookSyncMachine BS.a).state)).hasOnExit
        then [Ev.exitH (initConfig hookSyncMachine BS.a).state BS.b BA.halt] else []) ++
      (if (hookAt hookSyncMachine (hookSyncMachine.stype BS.b)).hasOnEnter
        then [Ev.enterH (initConfig hookSyncMachine BS.a).state BS.b BA.halt] else []) ++
      [Ev.publish BS.b] ∧
    (∀ b, Ev.setFlag b
      ∉ (dispatch hookSyncMachine (initConfig hookSyncMachine BS.a) BA.halt).evs) :=
  sync_transition_hooks_then_publish hookSyncMachine (initConfig hookSyncMachine BS.a)
    BA.halt haltReducer BS.b rfl rfl rfl

theorem block_mode_discards_dispatch_w :
    dispatch loadMachine (reach loadMachine BS.a [EvtIn.act BA.go]) BA.halt =
      ⟨reach loadMachine BS.a [EvtIn.act BA.go], [], none⟩ ∧
    ∀ i out,
      settle loadMachine
        (dispatch loadMachine (reach loadMachine BS.a [EvtIn.act BA.go]) BA.halt).cfg
        i out
      = settle loadMachine (reach loadMachine BS.a [EvtIn.act BA.go]) i out :=
  block_mode_discards_dispatch loadMachine (reach loadMachine BS.a [EvtIn.act BA.go])
    BA.halt rfl (by decide)

theorem sync_throw_error_recovery_w :
    (∀ h, failMachine.onError = some h →
      (dispatch failMachine (initConfig failMachine BS.a) BA.halt).cfg.state
        = h "boom" (initConfig failMachine BS.a).state BA.halt ∧
      (dispatch failMachine (initConfig failMachine BS.a) BA.halt).thrown = none) ∧
    (failMachine.onError = none →
      (dispatch failMachine (initConfig failMachine BS.a) BA.halt).thrown = some "boom" ∧
      (dispatch failMachine (initConfig failMachine BS.a) BA.halt).cfg.state
        = (initConfig failMachine BS.a).state) :=
  sync_throw_error_recovery failMachine (initConfig failMachine BS.a) BA.halt
    failReducer "boom" (fun hcontra => Bool.noConfusion hcontra.1) rfl rfl

end StateMachine
